import Mathlib

/-!
# microuci: the single-game session coordinator of `main.go`

`main.go` keeps one global `*chess.Game` and one global `*uci.Engine` and exposes
them through HTTP handlers.  This development embeds the handlers
`handleMove`, `handleShow`, `handleFen`, `handleNewGame` and `handleUCIInfo`
as state-passing functions and proves what they do to the session.  For two
requests served at once, `handleMove` is also split into its steps (`Task.step`),
which any schedule may interleave since `main.go` takes no lock.

Two collaborators live outside the repository and are taken as parameters:

* the rules library `github.com/notnil/chess` (`Rules`): legal-move
  generation, position update, notation decoding and printing;
* the engine process behind `github.com/notnil/chess/uci` (`Engine`): a state
  machine that answers each `Run` with success or an error and exposes its
  last search results.
-/

namespace MicroUCI

/-! ## Data model -/

/-- Status `http.StatusOK`. -/
def StatusOK : Nat := 200

/-- Status `http.StatusBadRequest`. -/
def StatusBadRequest : Nat := 400

/-- Status `http.StatusInternalServerError`. -/
def StatusInternalServerError : Nat := 500

/-- The capabilities of the rules library that `main.go` calls, for positions `P`
and moves `M`:
`chess.NewGame().Position()`, `Position.ValidMoves`, `Position.Update`,
`Move.String`, `Position.String`, `Board().Draw`, `UCINotation{}.Decode`,
`AlgebraicNotation{}.Decode` and `AlgebraicNotation{}.Encode`. -/
structure Rules (P M : Type) where
  startPos : P
  validMoves : P → List M
  update : P → M → P
  moveString : M → String
  posString : P → String
  draw : P → String
  decodeUCI : P → String → Option M
  decodeSAN : P → String → Option M
  encodeSAN : P → M → String

/-- One entry of `game.MoveHistory()`: a move with the positions around it. -/
structure MoveHistory (P M : Type) where
  PrePosition : P
  PostPosition : P
  Move : M
  deriving DecidableEq, Repr

/-- The state of a `*chess.Game` as `main.go` observes it: `game.Position()` and
`game.MoveHistory()`. -/
structure Game (P M : Type) where
  pos : P
  history : List (MoveHistory P M)
  deriving DecidableEq, Repr

/-- Constructor `chess.NewGame()`: the standard starting position, nothing played. -/
def NewGame {P M : Type} (R : Rules P M) : Game P M :=
  { pos := R.startPos, history := [] }

/-- Method `game.Move(m)`: the move is validated against the legal moves of the
current position; when legal it is applied and recorded, otherwise an error is
returned (`none`) and the game is left as it was.  A nil move is never legal. -/
def Game.Move {P M : Type} [DecidableEq M] (R : Rules P M) (g : Game P M) :
    Option M → Option (Game P M)
  | none => none
  | some m =>
    if m ∈ R.validMoves g.pos then
      some { pos := R.update g.pos m
             history := g.history ++
               [{ PrePosition := g.pos, PostPosition := R.update g.pos m, Move := m }] }
    else none

/-- The two commands `handleMove` passes to `uciEngine.Run`:
`uci.CmdPosition{Position: p}` and `uci.CmdGo{MoveTime: t}`. -/
inductive Cmd (P : Type) where
  | CmdPosition (Position : P)
  | CmdGo (MoveTime : Nat)
  deriving DecidableEq, Repr

/-- The engine behind `uciEngine`, with internal state `E`: `Run` answers a
command with an error flag and a new state; `SearchResults().BestMove` (possibly
nil), `SearchResults().Info`, `ID()` and `Options()` read the state. -/
structure Engine (E P M I D : Type) where
  Run : E → Cmd P → Bool × E
  BestMove : E → Option M
  Info : E → I
  ID : E → D
  Options : E → D

/-- The `Config` fields the handlers read. -/
structure Config where
  MoveTime : Nat

/-- The process state the handlers share: the global `game`, the state of the
global `uciEngine`, and the log of the commands passed to `uciEngine.Run` so far. -/
structure World (P M E : Type) where
  game : Game P M
  uciEngine : E
  sent : List (Cmd P)

/-- The query parameters `handleMove` reads; an absent parameter reads as `""`. -/
structure Request where
  uci : String
  san : String

/-- What a handler writes: an `http.Error` with its status and message, or one of
the success bodies. -/
inductive Response (I D : Type) where
  | error (status : Nat) (msg : String)
  | move (best_move fen : String) (legal_moves : List String) (info : I)
      (pgn : List String)
  | fen (fen : String) (legal_moves : List String) (pgn : List String)
  | text (body : String)
  | message (message : String)
  | uciInfo (info options : D)

/-- The status line of a response: the status of an `http.Error`, 200 otherwise. -/
def Response.status {I D : Type} : Response I D → Nat
  | .error s _ => s
  | _ => StatusOK

section Handlers

variable {P M E I D : Type} [DecidableEq M]

/-! ## Handlers -/

/-- Handler `handleMove` (`main.go` lines 76-154). -/
def handleMove (R : Rules P M) (En : Engine E P M I D) (config : Config)
    (w : World P M E) (r : Request) : Response I D × World P M E :=
  let uciMove := r.uci
  let sanMove := r.san
  let decoded : Except (Response I D) M :=
    if uciMove ≠ "" then
      match R.decodeUCI w.game.pos uciMove with
      | none => .error (.error StatusBadRequest "Invalid UCI move")
      | some userMove => .ok userMove
    else if sanMove ≠ "" then
      match R.decodeSAN w.game.pos sanMove with
      | none => .error (.error StatusBadRequest "Invalid SAN move")
      | some userMove => .ok userMove
    else .error (.error StatusBadRequest "Move not specified")
  match decoded with
  | .error resp => (resp, w)
  | .ok userMove =>
    match Game.Move R w.game (some userMove) with
    | none => (.error StatusInternalServerError "Failed to apply user's move", w)
    | some g1 =>
      let cmdPos : Cmd P := .CmdPosition g1.pos
      let r1 := En.Run w.uciEngine cmdPos
      let w1 : World P M E := { game := g1, uciEngine := r1.2, sent := w.sent ++ [cmdPos] }
      if r1.1 then (.error StatusInternalServerError "Failed to set position", w1)
      else
        let cmdGo : Cmd P := .CmdGo config.MoveTime
        let r2 := En.Run w1.uciEngine cmdGo
        let w2 : World P M E := { game := g1, uciEngine := r2.2, sent := w1.sent ++ [cmdGo] }
        if r2.1 then (.error StatusInternalServerError "Failed to start engine search", w2)
        else
          let bestMove := En.BestMove w2.uciEngine
          match Game.Move R w2.game bestMove, bestMove with
          | some g2, some bm =>
            let legalMovesStr := (R.validMoves g2.pos).map R.moveString
            let sanMoves := g2.history.map (fun h => R.encodeSAN h.PrePosition h.Move)
            (.move (R.moveString bm) (R.posString g2.pos) legalMovesStr
                (En.Info w2.uciEngine) sanMoves,
              { w2 with game := g2 })
          | _, _ => (.error StatusInternalServerError "Failed to apply best move", w2)

/-- Handler `handleShow` (`main.go` lines 156-162). -/
def handleShow (R : Rules P M) (w : World P M E) : Response I D × World P M E :=
  let ascii := R.draw w.game.pos
  (.text ("Current position: " ++ ascii), w)

/-- Handler `handleFen` (`main.go` lines 164-197). -/
def handleFen (R : Rules P M) (w : World P M E) : Response I D × World P M E :=
  let fen := R.posString w.game.pos
  let legalMovesStr := (R.validMoves w.game.pos).map R.moveString
  let sanMoves := w.game.history.map (fun h => R.encodeSAN h.PrePosition h.Move)
  (.fen fen legalMovesStr sanMoves, w)

/-- Handler `handleNewGame` (`main.go` lines 199-214). -/
def handleNewGame (R : Rules P M) (w : World P M E) : Response I D × World P M E :=
  (.message "New game started", { w with game := NewGame R })

/-- Handler `handleUCIInfo` (`main.go` lines 216-235). -/
def handleUCIInfo (En : Engine E P M I D) (w : World P M E) :
    Response I D × World P M E :=
  (.uciInfo (En.ID w.uciEngine) (En.Options w.uciEngine), w)

/-! ## Runs of the server -/

/-- A request to one of the session routes `/move`, `/fen`, `/show`, `/info`, `/new`. -/
inductive Call where
  | move (r : Request)
  | fen
  | board
  | uciInfo
  | newGame

/-- The world after serving one call. -/
def serve (R : Rules P M) (En : Engine E P M I D) (config : Config)
    (w : World P M E) : Call → World P M E
  | .move r => (handleMove R En config w r).2
  | .fen => (handleFen (I := I) (D := D) R w).2
  | .board => (handleShow (I := I) (D := D) R w).2
  | .uciInfo => (handleUCIInfo En w).2
  | .newGame => (handleNewGame (I := I) (D := D) R w).2

/-- The world left by `init`: a fresh game, the engine in the state `e0` its
startup handshake left it in, and nothing yet sent by a handler. -/
def initWorld (R : Rules P M) (e0 : E) : World P M E :=
  { game := NewGame R, uciEngine := e0, sent := [] }

/-- The world after serving a sequence of calls one after the other. -/
def serveAll (R : Rules P M) (En : Engine E P M I D) (config : Config)
    (w : World P M E) (cs : List Call) : World P M E :=
  cs.foldl (serve R En config) w

end Handlers

/-! ## A concrete rules oracle and engine

The first plies of a game, enough to run the handlers on concrete requests: a
position is identified by the line of moves played from the starting position. -/

/-- The moves of the opening fragment, named by their coordinate notation. -/
inductive Mv where
  | e2e4 | d2d4 | g1f3 | e2e5 | e7e5 | c7c5 | b8c6
  deriving DecidableEq, Repr

/-- Coordinate notation of a move, as `Move.String` prints it. -/
def Mv.coord : Mv → String
  | .e2e4 => "e2e4" | .d2d4 => "d2d4" | .g1f3 => "g1f3" | .e2e5 => "e2e5"
  | .e7e5 => "e7e5" | .c7c5 => "c7c5" | .b8c6 => "b8c6"

/-- Algebraic notation of a move of the fragment. -/
def Mv.alg : Mv → String
  | .e2e4 => "e4" | .d2d4 => "d4" | .g1f3 => "Nf3" | .e2e5 => "e5"
  | .e7e5 => "e5" | .c7c5 => "c5" | .b8c6 => "Nc6"

/-- Legal moves of the fragment: three first moves for White, two replies to
`e2e4`, and the continuations of `1. e4 e5`; `e2e5` is legal nowhere. -/
def openingMoves : List Mv → List Mv
  | [] => [.e2e4, .d2d4, .g1f3]
  | [.e2e4] => [.e7e5, .c7c5]
  | [.e2e4, .e7e5] => [.g1f3]
  | [.e2e4, .e7e5, .g1f3] => [.b8c6]
  | _ => []

/-- Coordinate decoding is syntactic: every move name of the fragment decodes,
whatever the position. -/
def openingDecodeUCI (s : String) : Option Mv :=
  [Mv.e2e4, .d2d4, .g1f3, .e2e5, .e7e5, .c7c5, .b8c6].find? (fun m => m.coord == s)

/-- Algebraic decoding looks the string up among the legal moves of the position. -/
def openingDecodeSAN (p : List Mv) (s : String) : Option Mv :=
  (openingMoves p).find? (fun m => m.alg == s)

/-- The opening fragment as a rules oracle. -/
def openingRules : Rules (List Mv) Mv where
  startPos := []
  validMoves := openingMoves
  update := fun p m => p ++ [m]
  moveString := Mv.coord
  posString := fun p => " ".intercalate (p.map Mv.coord)
  draw := fun p => " ".intercalate (p.map Mv.coord)
  decodeUCI := fun _ s => openingDecodeUCI s
  decodeSAN := openingDecodeSAN
  encodeSAN := fun _ m => m.alg

/-- State of the scripted engine: the error flags its next `Run` calls will
answer with (none left: success), and the best move it reports. -/
structure Script where
  errs : List Bool
  best : Option Mv
  deriving DecidableEq, Repr

/-- An engine that answers each `Run` with the next scripted error flag. -/
def scriptedEngine : Engine Script (List Mv) Mv Nat String where
  Run := fun e _ =>
    match e.errs with
    | [] => (false, e)
    | b :: bs => (b, { e with errs := bs })
  BestMove := fun e => e.best
  Info := fun _ => 0
  ID := fun _ => "scripted"
  Options := fun _ => ""

/-- A thinking budget of ten milliseconds, the default `move_time`. -/
def defaultConfig : Config := { MoveTime := 10 }

/-! ## Specification vocabulary -/

section Vocabulary

variable {P M E I D : Type} [DecidableEq M]

/-- The request `r` decodes to the move `um` at position `p`: the `uci` parameter is
present and decodes to `um`, or it is absent and the `san` parameter is present
and decodes to `um` (`main.go` lines 83-100). -/
def DecodesTo (R : Rules P M) (p : P) (r : Request) (um : M) : Prop :=
  (r.uci ≠ "" ∧ R.decodeUCI p r.uci = some um) ∨
  (r.uci = "" ∧ r.san ≠ "" ∧ R.decodeSAN p r.san = some um)

/-- The game after the move `m` has been applied to `g`. -/
def Game.after (R : Rules P M) (g : Game P M) (m : M) : Game P M :=
  { pos := R.update g.pos m
    history := g.history ++
      [{ PrePosition := g.pos, PostPosition := R.update g.pos m, Move := m }] }

/-- The history `h` is a line of legal moves leading from `p` to `q`: every entry
starts where the previous one ended, its move is legal there, and it ends in the
updated position. -/
def LegalLine (R : Rules P M) : P → List (MoveHistory P M) → P → Prop
  | p, [], q => q = p
  | p, h :: hs, q =>
    h.PrePosition = p ∧ h.Move ∈ R.validMoves p ∧ h.PostPosition = R.update p h.Move ∧
      LegalLine R h.PostPosition hs q

/-- The engine state after the `position` command of an exchange whose client
move led to the game `g1`. -/
def afterPosition (En : Engine E P M I D) (e : E) (g1 : Game P M) : Bool × E :=
  En.Run e (.CmdPosition g1.pos)

/-- The engine state after the `go` command that follows a `position` command. -/
def afterGo (En : Engine E P M I D) (config : Config) (e : E) (g1 : Game P M) : Bool × E :=
  En.Run (afterPosition En e g1).2 (.CmdGo config.MoveTime)

/-! ### Who played each move -/

/-- Who applied a move of the history: the client (`game.Move(userMove)`, line 102)
or the opponent (`game.Move(bestMove)`, line 123). -/
inductive Author where
  | client
  | opponent
  deriving DecidableEq, Repr

/-- The moves one call of `handleMove` applies to the game, in order, each with who
made it: nothing when the client step fails, the client's move alone when the
opponent step fails, the client's move then the engine's best move otherwise. -/
def playedBy (R : Rules P M) (En : Engine E P M I D) (config : Config)
    (w : World P M E) (r : Request) : List (Author × M) :=
  let decoded : Option M :=
    if r.uci ≠ "" then R.decodeUCI w.game.pos r.uci
    else if r.san ≠ "" then R.decodeSAN w.game.pos r.san
    else none
  match decoded with
  | none => []
  | some userMove =>
    match Game.Move R w.game (some userMove) with
    | none => []
    | some g1 =>
      if (afterPosition En w.uciEngine g1).1 then [(.client, userMove)]
      else if (afterGo En config w.uciEngine g1).1 then [(.client, userMove)]
      else
        match En.BestMove (afterGo En config w.uciEngine g1).2 with
        | none => [(.client, userMove)]
        | some bm =>
          if bm ∈ R.validMoves g1.pos then [(.client, userMove), (.opponent, bm)]
          else [(.client, userMove)]

/-- A record kept beside the session: the moves played since the last new game, each
with its author, and the number of exchanges since then that ended in an opponent
fault (the client's move applied, no opponent move). -/
structure Ledger (M : Type) where
  played : List (Author × M)
  faults : Nat
  deriving DecidableEq, Repr

/-- The ledger after serving one call from the world `w`. -/
def Ledger.record (R : Rules P M) (En : Engine E P M I D) (config : Config)
    (w : World P M E) (l : Ledger M) : Call → Ledger M
  | .move r =>
    { played := l.played ++ playedBy R En config w r
      faults := if (playedBy R En config w r).length = 1 then l.faults + 1 else l.faults }
  | .newGame => { played := [], faults := 0 }
  | .fen => l
  | .board => l
  | .uciInfo => l

/-- The ledger after serving a sequence of calls one after the other from `w`. -/
def Ledger.recordAll (R : Rules P M) (En : Engine E P M I D) (config : Config) :
    World P M E → Ledger M → List Call → Ledger M
  | _, l, [] => l
  | w, l, c :: cs =>
    Ledger.recordAll R En config (serve R En config w c) (Ledger.record R En config w l c) cs

/-- Every opponent move of the list stands right after a client move: the list is
made of single client moves and of client moves each followed by one opponent move. -/
inductive ClientLed {M : Type} : List (Author × M) → Prop where
  | nil : ClientLed []
  | single (um : M) (l : List (Author × M)) : ClientLed l → ClientLed ((.client, um) :: l)
  | exchange (um bm : M) (l : List (Author × M)) :
      ClientLed l → ClientLed ((.client, um) :: (.opponent, bm) :: l)

/-! ### The steps of one exchange -/

/-- Where one run of `handleMove` stands between two of its steps, with the local
variable it carries: not started, client move decoded (lines 77-100), client move
applied (lines 102-105), position sent (lines 108-112), search done (lines
115-119), answered. -/
inductive Task (M I D : Type) where
  | start (r : Request)
  | decoded (userMove : M)
  | applied
  | positioned
  | searched
  | done (resp : Response I D)

/-- One step of a run of `handleMove` on the shared globals: each step reads `game`
and `uciEngine` as they are when it runs. -/
def Task.step (R : Rules P M) (En : Engine E P M I D) (config : Config)
    (w : World P M E) : Task M I D → World P M E × Task M I D
  | .start r =>
    if r.uci ≠ "" then
      match R.decodeUCI w.game.pos r.uci with
      | none => (w, .done (.error StatusBadRequest "Invalid UCI move"))
      | some userMove => (w, .decoded userMove)
    else if r.san ≠ "" then
      match R.decodeSAN w.game.pos r.san with
      | none => (w, .done (.error StatusBadRequest "Invalid SAN move"))
      | some userMove => (w, .decoded userMove)
    else (w, .done (.error StatusBadRequest "Move not specified"))
  | .decoded userMove =>
    match Game.Move R w.game (some userMove) with
    | none => (w, .done (.error StatusInternalServerError "Failed to apply user's move"))
    | some g1 => ({ w with game := g1 }, .applied)
  | .applied =>
    let cmdPos : Cmd P := .CmdPosition w.game.pos
    let r1 := En.Run w.uciEngine cmdPos
    let w1 : World P M E := { w with uciEngine := r1.2, sent := w.sent ++ [cmdPos] }
    if r1.1 then (w1, .done (.error StatusInternalServerError "Failed to set position"))
    else (w1, .positioned)
  | .positioned =>
    let cmdGo : Cmd P := .CmdGo config.MoveTime
    let r2 := En.Run w.uciEngine cmdGo
    let w2 : World P M E := { w with uciEngine := r2.2, sent := w.sent ++ [cmdGo] }
    if r2.1 then
      (w2, .done (.error StatusInternalServerError "Failed to start engine search"))
    else (w2, .searched)
  | .searched =>
    let bestMove := En.BestMove w.uciEngine
    match Game.Move R w.game bestMove, bestMove with
    | some g2, some bm =>
      let legalMovesStr := (R.validMoves g2.pos).map R.moveString
      let sanMoves := g2.history.map (fun h => R.encodeSAN h.PrePosition h.Move)
      ({ w with game := g2 },
        .done (.move (R.moveString bm) (R.posString g2.pos) legalMovesStr
          (En.Info w.uciEngine) sanMoves))
    | _, _ => (w, .done (.error StatusInternalServerError "Failed to apply best move"))
  | .done resp => (w, .done resp)

/-- A run of `n` steps of one exchange with nothing in between. -/
def Task.run (R : Rules P M) (En : Engine E P M I D) (config : Config) :
    Nat → World P M E → Task M I D → World P M E × Task M I D
  | 0, w, t => (w, t)
  | n + 1, w, t =>
    Task.run R En config n (Task.step R En config w t).1 (Task.step R En config w t).2

/-- Which of two concurrent exchanges takes the next step. -/
inductive Turn where
  | first
  | second
  deriving DecidableEq, Repr

/-- Two exchanges in flight on the same globals. -/
structure Pair (P M E I D : Type) where
  world : World P M E
  first : Task M I D
  second : Task M I D

/-- The exchange named by the turn takes one step. -/
def Pair.step (R : Rules P M) (En : Engine E P M I D) (config : Config)
    (s : Pair P M E I D) : Turn → Pair P M E I D
  | .first =>
    { world := (Task.step R En config s.world s.first).1
      first := (Task.step R En config s.world s.first).2
      second := s.second }
  | .second =>
    { world := (Task.step R En config s.world s.second).1
      first := s.first
      second := (Task.step R En config s.world s.second).2 }

/-- The two exchanges step in the order the schedule gives; `main.go` holds no lock,
so every schedule is possible. -/
def runSchedule (R : Rules P M) (En : Engine E P M I D) (config : Config)
    (s : Pair P M E I D) (sched : List Turn) : Pair P M E I D :=
  sched.foldl (Pair.step R En config) s

end Vocabulary

/-! ## Lemmas on the vocabulary -/

section Basic

variable {P M : Type}

theorem decode_cases (R : Rules P M) (p : P) (r : Request) :
    (r.uci = "" ∧ r.san = "") ∨
    (r.uci ≠ "" ∧ R.decodeUCI p r.uci = none) ∨
    (r.uci = "" ∧ r.san ≠ "" ∧ R.decodeSAN p r.san = none) ∨
    ∃ um, DecodesTo R p r um := by
  by_cases hu : r.uci = ""
  · by_cases hs : r.san = ""
    · exact Or.inl ⟨hu, hs⟩
    · rcases Option.eq_none_or_eq_some (R.decodeSAN p r.san) with hd | ⟨um, hd⟩
      · exact Or.inr (Or.inr (Or.inl ⟨hu, hs, hd⟩))
      · exact Or.inr (Or.inr (Or.inr ⟨um, Or.inr ⟨hu, hs, hd⟩⟩))
  · rcases Option.eq_none_or_eq_some (R.decodeUCI p r.uci) with hd | ⟨um, hd⟩
    · exact Or.inr (Or.inl ⟨hu, hd⟩)
    · exact Or.inr (Or.inr (Or.inr ⟨um, Or.inl ⟨hu, hd⟩⟩))

theorem DecodesTo_unique (R : Rules P M) (p : P) (r : Request) (a b : M)
    (ha : DecodesTo R p r a) (hb : DecodesTo R p r b) : a = b := by
  rcases ha with ⟨hu, hd⟩ | ⟨hu, hs, hd⟩ <;> rcases hb with ⟨hu', hd'⟩ | ⟨hu', hs', hd'⟩
  · exact Option.some.inj (hd.symm.trans hd')
  · exact absurd hu' hu
  · exact absurd hu hu'
  · exact Option.some.inj (hd.symm.trans hd')

theorem LegalLine_append (R : Rules P M) (p q : P) (h : List (MoveHistory P M)) (m : M)
    (hl : LegalLine R p h q) (hm : m ∈ R.validMoves q) :
    LegalLine R p (h ++ [{ PrePosition := q, PostPosition := R.update q m, Move := m }])
      (R.update q m) := by
  induction h generalizing p with
  | nil =>
    simp only [LegalLine] at hl
    subst hl
    simp [LegalLine, hm]
  | cons e es ih =>
    obtain ⟨h1, h2, h3, h4⟩ := hl
    exact ⟨h1, h2, h3, ih _ h4⟩

theorem LegalLine_after (R : Rules P M) (g : Game P M) (m : M)
    (hl : LegalLine R R.startPos g.history g.pos) (hm : m ∈ R.validMoves g.pos) :
    LegalLine R R.startPos (Game.after R g m).history (Game.after R g m).pos :=
  LegalLine_append R R.startPos g.pos g.history m hl hm

theorem ClientLed_append (a b : List (Author × M)) (ha : ClientLed a) (hb : ClientLed b) :
    ClientLed (a ++ b) := by
  induction ha with
  | nil => simpa using hb
  | single um l _ ih => exact ClientLed.single um _ ih
  | exchange um bm l _ ih => exact ClientLed.exchange um bm _ ih

theorem ClientLed_opponent (l : List (Author × M)) (h : ClientLed l) :
    ∀ (l1 : List (Author × M)) (m : M) (l2 : List (Author × M)),
      l = l1 ++ (Author.opponent, m) :: l2 → ∃ l0 um, l1 = l0 ++ [(Author.client, um)] := by
  induction h with
  | nil => intro l1 m l2 h; simp at h
  | single um l _ ih =>
    intro l1 m l2 h
    cases l1 with
    | nil => simp at h
    | cons x l1 =>
      simp only [List.cons_append, List.cons.injEq] at h
      obtain ⟨l0, um1, h0⟩ := ih l1 m l2 h.2
      exact ⟨x :: l0, um1, by simp [h0]⟩
  | exchange um bm l _ ih =>
    intro l1 m l2 h
    cases l1 with
    | nil => simp at h
    | cons x l1 =>
      cases l1 with
      | nil =>
        simp only [List.cons_append, List.nil_append, List.cons.injEq] at h
        exact ⟨[], um, by simp [h.1]⟩
      | cons y l1 =>
        simp only [List.cons_append, List.cons.injEq] at h
        obtain ⟨l0, um1, h0⟩ := ih l1 m l2 h.2.2
        exact ⟨x :: y :: l0, um1, by simp [h0]⟩

end Basic

/-! ## Lemmas on the handlers -/

section Lemmas

variable {P M E I D : Type} [DecidableEq M]

theorem Game.Move_legal (R : Rules P M) (g : Game P M) (m : M)
    (h : m ∈ R.validMoves g.pos) : Game.Move R g (some m) = some (Game.after R g m) := by
  simp [Game.Move, Game.after, h]

theorem Game.Move_illegal (R : Rules P M) (g : Game P M) (m : M)
    (h : m ∉ R.validMoves g.pos) : Game.Move R g (some m) = none := by
  simp [Game.Move, h]

theorem Game.Move_eq_some (R : Rules P M) (g g1 : Game P M) (om : Option M)
    (h : Game.Move R g om = some g1) :
    ∃ m, om = some m ∧ m ∈ R.validMoves g.pos ∧ g1 = Game.after R g m := by
  cases om with
  | none => simp [Game.Move] at h
  | some m =>
    by_cases hm : m ∈ R.validMoves g.pos
    · rw [Game.Move_legal R g m hm] at h
      exact ⟨m, rfl, hm, (Option.some.inj h).symm⟩
    · rw [Game.Move_illegal R g m hm] at h
      cases h

theorem handleMove_not_specified (R : Rules P M) (En : Engine E P M I D) (config : Config)
    (w : World P M E) (r : Request) (hu : r.uci = "") (hs : r.san = "") :
    handleMove R En config w r = (.error StatusBadRequest "Move not specified", w) := by
  simp [handleMove, hu, hs]

theorem handleMove_invalid_uci (R : Rules P M) (En : Engine E P M I D) (config : Config)
    (w : World P M E) (r : Request) (hu : r.uci ≠ "")
    (hd : R.decodeUCI w.game.pos r.uci = none) :
    handleMove R En config w r = (.error StatusBadRequest "Invalid UCI move", w) := by
  simp [handleMove, hu, hd]

theorem handleMove_invalid_san (R : Rules P M) (En : Engine E P M I D) (config : Config)
    (w : World P M E) (r : Request) (hu : r.uci = "") (hs : r.san ≠ "")
    (hd : R.decodeSAN w.game.pos r.san = none) :
    handleMove R En config w r = (.error StatusBadRequest "Invalid SAN move", w) := by
  simp [handleMove, hu, hs, hd]

theorem handleMove_illegal (R : Rules P M) (En : Engine E P M I D) (config : Config)
    (w : World P M E) (r : Request) (um : M) (hd : DecodesTo R w.game.pos r um)
    (hm : um ∉ R.validMoves w.game.pos) :
    handleMove R En config w r =
      (.error StatusInternalServerError "Failed to apply user's move", w) := by
  rcases hd with ⟨hu, hd⟩ | ⟨hu, hs, hd⟩
  · simp [handleMove, hu, hd, Game.Move_illegal R w.game um hm]
  · simp [handleMove, hu, hs, hd, Game.Move_illegal R w.game um hm]

theorem handleMove_position_error (R : Rules P M) (En : Engine E P M I D) (config : Config)
    (w : World P M E) (r : Request) (um : M) (hd : DecodesTo R w.game.pos r um)
    (hm : um ∈ R.validMoves w.game.pos)
    (h1 : (afterPosition En w.uciEngine (Game.after R w.game um)).1 = true) :
    handleMove R En config w r =
      (.error StatusInternalServerError "Failed to set position",
        { game := Game.after R w.game um
          uciEngine := (afterPosition En w.uciEngine (Game.after R w.game um)).2
          sent := w.sent ++ [.CmdPosition (Game.after R w.game um).pos] }) := by
  simp only [afterPosition] at h1
  rcases hd with ⟨hu, hd⟩ | ⟨hu, hs, hd⟩
  · simp [handleMove, hu, hd, Game.Move_legal R w.game um hm, h1, afterPosition]
  · simp [handleMove, hu, hs, hd, Game.Move_legal R w.game um hm, h1, afterPosition]

theorem handleMove_go_error (R : Rules P M) (En : Engine E P M I D) (config : Config)
    (w : World P M E) (r : Request) (um : M) (hd : DecodesTo R w.game.pos r um)
    (hm : um ∈ R.validMoves w.game.pos)
    (h1 : (afterPosition En w.uciEngine (Game.after R w.game um)).1 = false)
    (h2 : (afterGo En config w.uciEngine (Game.after R w.game um)).1 = true) :
    handleMove R En config w r =
      (.error StatusInternalServerError "Failed to start engine search",
        { game := Game.after R w.game um
          uciEngine := (afterGo En config w.uciEngine (Game.after R w.game um)).2
          sent := w.sent ++ [.CmdPosition (Game.after R w.game um).pos] ++
            [.CmdGo config.MoveTime] }) := by
  simp only [afterGo, afterPosition] at h1 h2
  rcases hd with ⟨hu, hd⟩ | ⟨hu, hs, hd⟩
  · simp [handleMove, hu, hd, Game.Move_legal R w.game um hm, h1, h2, afterGo, afterPosition]
  · simp [handleMove, hu, hs, hd, Game.Move_legal R w.game um hm, h1, h2, afterGo,
      afterPosition]

theorem handleMove_best_move_error (R : Rules P M) (En : Engine E P M I D) (config : Config)
    (w : World P M E) (r : Request) (um : M) (hd : DecodesTo R w.game.pos r um)
    (hm : um ∈ R.validMoves w.game.pos)
    (h1 : (afterPosition En w.uciEngine (Game.after R w.game um)).1 = false)
    (h2 : (afterGo En config w.uciEngine (Game.after R w.game um)).1 = false)
    (h3 : Game.Move R (Game.after R w.game um)
      (En.BestMove (afterGo En config w.uciEngine (Game.after R w.game um)).2) = none) :
    handleMove R En config w r =
      (.error StatusInternalServerError "Failed to apply best move",
        { game := Game.after R w.game um
          uciEngine := (afterGo En config w.uciEngine (Game.after R w.game um)).2
          sent := w.sent ++ [.CmdPosition (Game.after R w.game um).pos] ++
            [.CmdGo config.MoveTime] }) := by
  simp only [afterGo, afterPosition] at h1 h2 h3
  rcases hd with ⟨hu, hd⟩ | ⟨hu, hs, hd⟩
  · simp [handleMove, hu, hd, Game.Move_legal R w.game um hm, h1, h2, h3, afterGo,
      afterPosition]
  · simp [handleMove, hu, hs, hd, Game.Move_legal R w.game um hm, h1, h2, h3, afterGo,
      afterPosition]

theorem handleMove_ok (R : Rules P M) (En : Engine E P M I D) (config : Config)
    (w : World P M E) (r : Request) (um bm : M) (hd : DecodesTo R w.game.pos r um)
    (hm : um ∈ R.validMoves w.game.pos)
    (h1 : (afterPosition En w.uciEngine (Game.after R w.game um)).1 = false)
    (h2 : (afterGo En config w.uciEngine (Game.after R w.game um)).1 = false)
    (hb : En.BestMove (afterGo En config w.uciEngine (Game.after R w.game um)).2 = some bm)
    (hl : bm ∈ R.validMoves (Game.after R w.game um).pos) :
    handleMove R En config w r =
      (.move (R.moveString bm)
          (R.posString (Game.after R (Game.after R w.game um) bm).pos)
          ((R.validMoves (Game.after R (Game.after R w.game um) bm).pos).map R.moveString)
          (En.Info (afterGo En config w.uciEngine (Game.after R w.game um)).2)
          ((Game.after R (Game.after R w.game um) bm).history.map
            (fun h => R.encodeSAN h.PrePosition h.Move)),
        { game := Game.after R (Game.after R w.game um) bm
          uciEngine := (afterGo En config w.uciEngine (Game.after R w.game um)).2
          sent := w.sent ++ [.CmdPosition (Game.after R w.game um).pos] ++
            [.CmdGo config.MoveTime] }) := by
  have h3 := Game.Move_legal R (Game.after R w.game um) bm hl
  simp only [afterGo, afterPosition] at h1 h2 hb h3
  rcases hd with ⟨hu, hd⟩ | ⟨hu, hs, hd⟩
  · simp [handleMove, hu, hd, Game.Move_legal R w.game um hm, h1, h2, hb, h3, afterGo,
      afterPosition]
  · simp [handleMove, hu, hs, hd, Game.Move_legal R w.game um hm, h1, h2, hb, h3, afterGo,
      afterPosition]

end Lemmas

/-! ## Failures at the client step -/

section ClientStep

variable {P M E I D : Type} [DecidableEq M]

/-- C1: when `handleMove` fails at or before applying the client's move (no notation
supplied, the supplied string does not decode, or the decoded move is not legal in
the current position), the position and the move history are those from before the
call and no command has been sent to the engine. -/
theorem handleMove_client_failure_unchanged (R : Rules P M) (En : Engine E P M I D)
    (config : Config) (w : World P M E) (r : Request)
    (h : (r.uci = "" ∧ r.san = "") ∨
      (r.uci ≠ "" ∧ R.decodeUCI w.game.pos r.uci = none) ∨
      (r.uci = "" ∧ r.san ≠ "" ∧ R.decodeSAN w.game.pos r.san = none) ∨
      (∃ um, DecodesTo R w.game.pos r um ∧ um ∉ R.validMoves w.game.pos)) :
    (handleMove R En config w r).2.game.pos = w.game.pos ∧
    (handleMove R En config w r).2.game.history = w.game.history ∧
    (handleMove R En config w r).2.sent = w.sent ∧
    (handleMove R En config w r).1.status ≠ StatusOK := by
  rcases h with ⟨hu, hs⟩ | ⟨hu, hd⟩ | ⟨hu, hs, hd⟩ | ⟨um, hd, hm⟩
  · rw [handleMove_not_specified R En config w r hu hs]
    exact ⟨rfl, rfl, rfl, by simp [Response.status, StatusBadRequest, StatusInternalServerError, StatusOK]⟩
  · rw [handleMove_invalid_uci R En config w r hu hd]
    exact ⟨rfl, rfl, rfl, by simp [Response.status, StatusBadRequest, StatusInternalServerError, StatusOK]⟩
  · rw [handleMove_invalid_san R En config w r hu hs hd]
    exact ⟨rfl, rfl, rfl, by simp [Response.status, StatusBadRequest, StatusInternalServerError, StatusOK]⟩
  · rw [handleMove_illegal R En config w r um hd hm]
    exact ⟨rfl, rfl, rfl, by simp [Response.status, StatusBadRequest, StatusInternalServerError, StatusOK]⟩

/-- C1, at the starting position with the request `uci=e2e5`: the move decodes, is
not legal, and the session is left as it was. -/
theorem handleMove_client_failure_unchanged_witness :
    (∃ um, DecodesTo openingRules (initWorld openingRules (⟨[], some .e7e5⟩ : Script)).game.pos
        ⟨"e2e5", ""⟩ um ∧
      um ∉ openingRules.validMoves
        (initWorld openingRules (⟨[], some .e7e5⟩ : Script)).game.pos) ∧
    (handleMove openingRules scriptedEngine defaultConfig
      (initWorld openingRules ⟨[], some .e7e5⟩) ⟨"e2e5", ""⟩).2.game.pos = [] ∧
    (handleMove openingRules scriptedEngine defaultConfig
      (initWorld openingRules ⟨[], some .e7e5⟩) ⟨"e2e5", ""⟩).2.game.history = [] ∧
    (handleMove openingRules scriptedEngine defaultConfig
      (initWorld openingRules ⟨[], some .e7e5⟩) ⟨"e2e5", ""⟩).2.sent = [] ∧
    (handleMove openingRules scriptedEngine defaultConfig
      (initWorld openingRules ⟨[], some .e7e5⟩) ⟨"e2e5", ""⟩).1.status ≠ StatusOK :=
  have hw : ∃ um, DecodesTo openingRules
      (initWorld openingRules (⟨[], some .e7e5⟩ : Script)).game.pos ⟨"e2e5", ""⟩ um ∧
      um ∉ openingRules.validMoves
        (initWorld openingRules (⟨[], some .e7e5⟩ : Script)).game.pos :=
    ⟨Mv.e2e5, Or.inl ⟨by decide, by decide⟩, by decide⟩
  ⟨hw, handleMove_client_failure_unchanged openingRules scriptedEngine defaultConfig
    (initWorld openingRules ⟨[], some .e7e5⟩) ⟨"e2e5", ""⟩ (Or.inr (Or.inr (Or.inr hw)))⟩

/-- C2 as stated fails: at the starting position `uci=e2e5` decodes to a move that
is not legal there, and `handleMove` answers 500, not 400. -/
theorem handleMove_illegal_status_counterexample :
    openingRules.decodeUCI openingRules.startPos "e2e5" = some Mv.e2e5 ∧
    Mv.e2e5 ∉ openingRules.validMoves openingRules.startPos ∧
    (handleMove openingRules scriptedEngine defaultConfig
      (initWorld openingRules ⟨[], some .e7e5⟩) ⟨"e2e5", ""⟩).1.status
        = StatusInternalServerError ∧
    (handleMove openingRules scriptedEngine defaultConfig
      (initWorld openingRules ⟨[], some .e7e5⟩) ⟨"e2e5", ""⟩).1.status
        ≠ StatusBadRequest := by
  decide

/-- C2, amended: a client move that decodes but is not legal in the current position
is answered with status 500 and the message "Failed to apply user's move"; an
opponent failure (a 500 answer to a request whose client move was legal) carries the
same status and a different message. -/
theorem handleMove_illegal_status (R : Rules P M) (En : Engine E P M I D)
    (config : Config) (w : World P M E) (r : Request) (um : M)
    (hd : DecodesTo R w.game.pos r um) (hm : um ∉ R.validMoves w.game.pos) :
    (handleMove R En config w r).1 =
      .error StatusInternalServerError "Failed to apply user's move" ∧
    ∀ (w' : World P M E) (r' : Request) (um' : M),
      DecodesTo R w'.game.pos r' um' → um' ∈ R.validMoves w'.game.pos →
      (handleMove R En config w' r').1.status = StatusInternalServerError →
      ∃ msg, (handleMove R En config w' r').1 = .error StatusInternalServerError msg ∧
        msg ≠ "Failed to apply user's move" := by
  refine ⟨by rw [handleMove_illegal R En config w r um hd hm], ?_⟩
  intro w' r' um' hd' hm' hst
  cases h1 : (afterPosition En w'.uciEngine (Game.after R w'.game um')).1 with
  | true =>
    rw [handleMove_position_error R En config w' r' um' hd' hm' h1]
    exact ⟨_, rfl, by decide⟩
  | false =>
    cases h2 : (afterGo En config w'.uciEngine (Game.after R w'.game um')).1 with
    | true =>
      rw [handleMove_go_error R En config w' r' um' hd' hm' h1 h2]
      exact ⟨_, rfl, by decide⟩
    | false =>
      cases h3 : Game.Move R (Game.after R w'.game um')
          (En.BestMove (afterGo En config w'.uciEngine (Game.after R w'.game um')).2) with
      | none =>
        rw [handleMove_best_move_error R En config w' r' um' hd' hm' h1 h2 h3]
        exact ⟨_, rfl, by decide⟩
      | some g2 =>
        obtain ⟨bm, hb, hl, -⟩ := Game.Move_eq_some R _ _ _ h3
        rw [handleMove_ok R En config w' r' um' bm hd' hm' h1 h2 hb hl] at hst
        simp [Response.status, StatusInternalServerError, StatusOK] at hst

/-- C2 amended, at the starting position with the request `uci=e2e5`. -/
theorem handleMove_illegal_status_witness :
    DecodesTo openingRules (initWorld openingRules (⟨[], some .e7e5⟩ : Script)).game.pos
      ⟨"e2e5", ""⟩ Mv.e2e5 ∧
    Mv.e2e5 ∉ openingRules.validMoves
      (initWorld openingRules (⟨[], some .e7e5⟩ : Script)).game.pos ∧
    (handleMove openingRules scriptedEngine defaultConfig
      (initWorld openingRules ⟨[], some .e7e5⟩) ⟨"e2e5", ""⟩).1 =
      .error StatusInternalServerError "Failed to apply user's move" :=
  ⟨Or.inl ⟨by decide, by decide⟩, by decide,
    (handleMove_illegal_status openingRules scriptedEngine defaultConfig
      (initWorld openingRules ⟨[], some .e7e5⟩) ⟨"e2e5", ""⟩ Mv.e2e5
      (Or.inl ⟨by decide, by decide⟩) (by decide)).1⟩

end ClientStep

/-! ## The exchange after an accepted client move -/

section Exchange

variable {P M E I D : Type} [DecidableEq M]

/-- C4: when `handleMove` answers 200, the request decoded to a client move `um` and
the engine reported a best move `bm`; the history is the old one with `um` then `bm`
appended, and the answer carries the string of `bm`, the string of the position
after both moves, the strings of all valid moves of that position, the engine's
search info and one algebraic entry per move of the whole history, each encoded
against its pre-position. -/
theorem handleMove_success_view (R : Rules P M) (En : Engine E P M I D)
    (config : Config) (w : World P M E) (r : Request)
    (h : (handleMove R En config w r).1.status = StatusOK) :
    ∃ um bm, DecodesTo R w.game.pos r um ∧
      En.BestMove (afterGo En config w.uciEngine (Game.after R w.game um)).2 = some bm ∧
      (handleMove R En config w r).2.game.history = w.game.history ++
        [{ PrePosition := w.game.pos, PostPosition := R.update w.game.pos um, Move := um },
         { PrePosition := R.update w.game.pos um,
           PostPosition := R.update (R.update w.game.pos um) bm, Move := bm }] ∧
      (handleMove R En config w r).2.game.pos = R.update (R.update w.game.pos um) bm ∧
      (handleMove R En config w r).1 =
        .move (R.moveString bm)
          (R.posString (handleMove R En config w r).2.game.pos)
          ((R.validMoves (handleMove R En config w r).2.game.pos).map R.moveString)
          (En.Info (afterGo En config w.uciEngine (Game.after R w.game um)).2)
          ((handleMove R En config w r).2.game.history.map
            (fun e => R.encodeSAN e.PrePosition e.Move)) ∧
      ((handleMove R En config w r).2.game.history.map
        (fun e => R.encodeSAN e.PrePosition e.Move)).length = w.game.history.length + 2 := by
  rcases decode_cases R w.game.pos r with ⟨hu, hs⟩ | ⟨hu, hd⟩ | ⟨hu, hs, hd⟩ | ⟨um, hd⟩
  · rw [handleMove_not_specified R En config w r hu hs] at h
    simp [Response.status, StatusBadRequest, StatusOK] at h
  · rw [handleMove_invalid_uci R En config w r hu hd] at h
    simp [Response.status, StatusBadRequest, StatusOK] at h
  · rw [handleMove_invalid_san R En config w r hu hs hd] at h
    simp [Response.status, StatusBadRequest, StatusOK] at h
  · by_cases hm : um ∈ R.validMoves w.game.pos
    · cases h1 : (afterPosition En w.uciEngine (Game.after R w.game um)).1 with
      | true =>
        rw [handleMove_position_error R En config w r um hd hm h1] at h
        simp [Response.status, StatusInternalServerError, StatusOK] at h
      | false =>
        cases h2 : (afterGo En config w.uciEngine (Game.after R w.game um)).1 with
        | true =>
          rw [handleMove_go_error R En config w r um hd hm h1 h2] at h
          simp [Response.status, StatusInternalServerError, StatusOK] at h
        | false =>
          cases h3 : Game.Move R (Game.after R w.game um)
              (En.BestMove (afterGo En config w.uciEngine (Game.after R w.game um)).2) with
          | none =>
            rw [handleMove_best_move_error R En config w r um hd hm h1 h2 h3] at h
            simp [Response.status, StatusInternalServerError, StatusOK] at h
          | some g2 =>
            obtain ⟨bm, hb, hl, -⟩ := Game.Move_eq_some R _ _ _ h3
            refine ⟨um, bm, hd, hb, ?_⟩
            rw [handleMove_ok R En config w r um bm hd hm h1 h2 hb hl]
            simp [Game.after]
    · rw [handleMove_illegal R En config w r um hd hm] at h
      simp [Response.status, StatusInternalServerError, StatusOK] at h

/-- C4, at the starting position: the client plays `e2e4`, the engine answers `e7e5`. -/
theorem handleMove_success_view_witness :
    (handleMove openingRules scriptedEngine defaultConfig
      (initWorld openingRules ⟨[], some .e7e5⟩) ⟨"e2e4", ""⟩).1.status = StatusOK ∧
    ∃ um bm, DecodesTo openingRules [] ⟨"e2e4", ""⟩ um ∧
      some Mv.e7e5 = some bm ∧
      (handleMove openingRules scriptedEngine defaultConfig
        (initWorld openingRules ⟨[], some .e7e5⟩) ⟨"e2e4", ""⟩).2.game.history =
        [{ PrePosition := [], PostPosition := [] ++ [um], Move := um },
         { PrePosition := [] ++ [um], PostPosition := [] ++ [um] ++ [bm], Move := bm }] ∧
      (handleMove openingRules scriptedEngine defaultConfig
        (initWorld openingRules ⟨[], some .e7e5⟩) ⟨"e2e4", ""⟩).2.game.pos
          = [] ++ [um] ++ [bm] :=
  ⟨by decide,
    (handleMove_success_view openingRules scriptedEngine defaultConfig
      (initWorld openingRules ⟨[], some .e7e5⟩) ⟨"e2e4", ""⟩ (by decide)).imp
      fun _ hum => hum.imp fun _ hbm => ⟨hbm.1, hbm.2.1, hbm.2.2.1, hbm.2.2.2.1⟩⟩

/-- C5: after a legal client move `um`, when the opponent step fails (the `position`
command errors, the `go` command errors, or the engine's best move is missing or not
legal in the position after `um`), `handleMove` answers 500 and the session holds the
prior history with `um` appended and the position after `um`. -/
theorem handleMove_opponent_failure (R : Rules P M) (En : Engine E P M I D)
    (config : Config) (w : World P M E) (r : Request) (um : M)
    (hd : DecodesTo R w.game.pos r um) (hm : um ∈ R.validMoves w.game.pos)
    (hfail : (afterPosition En w.uciEngine (Game.after R w.game um)).1 = true ∨
      (afterGo En config w.uciEngine (Game.after R w.game um)).1 = true ∨
      ∀ bm, En.BestMove (afterGo En config w.uciEngine (Game.after R w.game um)).2 = some bm →
        bm ∉ R.validMoves (R.update w.game.pos um)) :
    (handleMove R En config w r).1.status = StatusInternalServerError ∧
    (handleMove R En config w r).2.game.history = w.game.history ++
      [{ PrePosition := w.game.pos, PostPosition := R.update w.game.pos um, Move := um }] ∧
    (handleMove R En config w r).2.game.history.length = w.game.history.length + 1 ∧
    (handleMove R En config w r).2.game.pos = R.update w.game.pos um := by
  cases h1 : (afterPosition En w.uciEngine (Game.after R w.game um)).1 with
  | true =>
    rw [handleMove_position_error R En config w r um hd hm h1]
    simp [Response.status, Game.after]
  | false =>
    cases h2 : (afterGo En config w.uciEngine (Game.after R w.game um)).1 with
    | true =>
      rw [handleMove_go_error R En config w r um hd hm h1 h2]
      simp [Response.status, Game.after]
    | false =>
      have h3 : Game.Move R (Game.after R w.game um)
          (En.BestMove (afterGo En config w.uciEngine (Game.after R w.game um)).2) = none := by
        rcases hfail with hf | hf | hf
        · rw [h1] at hf; cases hf
        · rw [h2] at hf; cases hf
        · cases hb : En.BestMove (afterGo En config w.uciEngine (Game.after R w.game um)).2 with
          | none => rfl
          | some bm => exact Game.Move_illegal R _ bm (hf bm hb)
      rw [handleMove_best_move_error R En config w r um hd hm h1 h2 h3]
      simp [Response.status, Game.after]

/-- C5, at the starting position: the client plays `e2e4` and the `position` command
errors. -/
theorem handleMove_opponent_failure_witness :
    DecodesTo openingRules [] ⟨"e2e4", ""⟩ Mv.e2e4 ∧ Mv.e2e4 ∈ openingRules.validMoves [] ∧
    (handleMove openingRules scriptedEngine defaultConfig
      (initWorld openingRules ⟨[true], some .e7e5⟩) ⟨"e2e4", ""⟩).1.status
        = StatusInternalServerError ∧
    (handleMove openingRules scriptedEngine defaultConfig
      (initWorld openingRules ⟨[true], some .e7e5⟩) ⟨"e2e4", ""⟩).2.game.history =
      [] ++ [{ PrePosition := [], PostPosition := [Mv.e2e4], Move := Mv.e2e4 }] ∧
    (handleMove openingRules scriptedEngine defaultConfig
      (initWorld openingRules ⟨[true], some .e7e5⟩) ⟨"e2e4", ""⟩).2.game.history.length
        = 0 + 1 ∧
    (handleMove openingRules scriptedEngine defaultConfig
      (initWorld openingRules ⟨[true], some .e7e5⟩) ⟨"e2e4", ""⟩).2.game.pos = [Mv.e2e4] :=
  ⟨Or.inl ⟨by decide, by decide⟩, by decide,
    handleMove_opponent_failure openingRules scriptedEngine defaultConfig
      (initWorld openingRules ⟨[true], some .e7e5⟩) ⟨"e2e4", ""⟩ Mv.e2e4
      (Or.inl ⟨by decide, by decide⟩) (by decide) (Or.inl (by decide))⟩

end Exchange

/-! ## Notation precedence and engine commands -/

section Commands

variable {P M E I D : Type} [DecidableEq M]

/-- C6 as stated fails: with both `uci=e2e4` and `san=e4` supplied at the starting
position, `handleMove` answers 200 and two moves are played. -/
theorem handleMove_both_notations_counterexample :
    ("e2e4" : String) ≠ "" ∧ ("e4" : String) ≠ "" ∧
    (handleMove openingRules scriptedEngine defaultConfig
      (initWorld openingRules ⟨[], some .e7e5⟩) ⟨"e2e4", "e4"⟩).1.status = StatusOK ∧
    (handleMove openingRules scriptedEngine defaultConfig
      (initWorld openingRules ⟨[], some .e7e5⟩) ⟨"e2e4", "e4"⟩).1.status ≠ StatusBadRequest ∧
    (handleMove openingRules scriptedEngine defaultConfig
      (initWorld openingRules ⟨[], some .e7e5⟩) ⟨"e2e4", "e4"⟩).2.game.pos
        = [Mv.e2e4, Mv.e7e5] ∧
    (handleMove openingRules scriptedEngine defaultConfig
      (initWorld openingRules ⟨[], some .e7e5⟩) ⟨"e2e4", "e4"⟩).2.game.history.length = 2 := by
  decide

/-- C6, amended: when the `uci` parameter is non-empty it takes precedence, and
`handleMove` answers and acts exactly as if `san` had not been supplied; when
neither parameter is supplied it answers 400 "Move not specified" and leaves the
session as it was. -/
theorem handleMove_notation_precedence (R : Rules P M) (En : Engine E P M I D)
    (config : Config) (w : World P M E) (uci san : String) (hu : uci ≠ "") :
    handleMove R En config w ⟨uci, san⟩ = handleMove R En config w ⟨uci, ""⟩ ∧
    handleMove R En config w ⟨"", ""⟩ =
      (.error StatusBadRequest "Move not specified", w) := by
  constructor
  · simp [handleMove, hu]
  · exact handleMove_not_specified R En config w ⟨"", ""⟩ rfl rfl

/-- C6 amended, at the starting position with `uci=e2e4` and `san=e4`. -/
theorem handleMove_notation_precedence_witness :
    ("e2e4" : String) ≠ "" ∧
    handleMove openingRules scriptedEngine defaultConfig
      (initWorld openingRules ⟨[], some .e7e5⟩) ⟨"e2e4", "e4"⟩ =
    handleMove openingRules scriptedEngine defaultConfig
      (initWorld openingRules ⟨[], some .e7e5⟩) ⟨"e2e4", ""⟩ :=
  ⟨by decide, (handleMove_notation_precedence openingRules scriptedEngine defaultConfig
    (initWorld openingRules ⟨[], some .e7e5⟩) "e2e4" "e4" (by decide)).1⟩

/-- C9: the commands one run of `handleMove` sends to the engine are a prefix of
`[position p1, go MoveTime]`, where `p1` is the session position after the client
move: nothing, or `position p1` alone when that command errored (the session then
rests at `p1`), or `position p1` answered without error and followed by `go` with
the configured `MoveTime`. -/
theorem handleMove_commands (R : Rules P M) (En : Engine E P M I D)
    (config : Config) (w : World P M E) (r : Request) :
    (handleMove R En config w r).2.sent = w.sent ∨
    ∃ um, DecodesTo R w.game.pos r um ∧ um ∈ R.validMoves w.game.pos ∧
      (((handleMove R En config w r).2.sent =
            w.sent ++ [.CmdPosition (R.update w.game.pos um)] ∧
          (En.Run w.uciEngine (.CmdPosition (R.update w.game.pos um))).1 = true ∧
          (handleMove R En config w r).2.game.pos = R.update w.game.pos um) ∨
        ((handleMove R En config w r).2.sent =
            w.sent ++ [.CmdPosition (R.update w.game.pos um), .CmdGo config.MoveTime] ∧
          (En.Run w.uciEngine (.CmdPosition (R.update w.game.pos um))).1 = false)) := by
  rcases decode_cases R w.game.pos r with ⟨hu, hs⟩ | ⟨hu, hd⟩ | ⟨hu, hs, hd⟩ | ⟨um, hd⟩
  · rw [handleMove_not_specified R En config w r hu hs]; exact Or.inl rfl
  · rw [handleMove_invalid_uci R En config w r hu hd]; exact Or.inl rfl
  · rw [handleMove_invalid_san R En config w r hu hs hd]; exact Or.inl rfl
  · by_cases hm : um ∈ R.validMoves w.game.pos
    · refine Or.inr ⟨um, hd, hm, ?_⟩
      cases h1 : (afterPosition En w.uciEngine (Game.after R w.game um)).1 with
      | true =>
        rw [handleMove_position_error R En config w r um hd hm h1]
        exact Or.inl ⟨rfl, h1, rfl⟩
      | false =>
        refine Or.inr ⟨?_, h1⟩
        cases h2 : (afterGo En config w.uciEngine (Game.after R w.game um)).1 with
        | true =>
          rw [handleMove_go_error R En config w r um hd hm h1 h2]
          simp [Game.after]
        | false =>
          cases h3 : Game.Move R (Game.after R w.game um)
              (En.BestMove (afterGo En config w.uciEngine (Game.after R w.game um)).2) with
          | none =>
            rw [handleMove_best_move_error R En config w r um hd hm h1 h2 h3]
            simp [Game.after]
          | some g2 =>
            obtain ⟨bm, hb, hl, -⟩ := Game.Move_eq_some R _ _ _ h3
            rw [handleMove_ok R En config w r um bm hd hm h1 h2 hb hl]
            simp [Game.after]
    · rw [handleMove_illegal R En config w r um hd hm]; exact Or.inl rfl

end Commands

/-! ## Reset -/

section Reset

variable {P M E I D : Type}

/-- C7: whatever the session held, after `handleNewGame` the move history is empty,
the position is the starting position, and the engine has received no command (the
log of sent commands and the engine state are those from before). -/
theorem handleNewGame_resets (R : Rules P M) (w : World P M E) :
    (handleNewGame (I := I) (D := D) R w).2.game.history = [] ∧
    (handleNewGame (I := I) (D := D) R w).2.game.pos = R.startPos ∧
    (handleNewGame (I := I) (D := D) R w).2.sent = w.sent ∧
    (handleNewGame (I := I) (D := D) R w).2.uciEngine = w.uciEngine :=
  ⟨rfl, rfl, rfl, rfl⟩

end Reset

/-! ## Invariants of the reachable sessions -/

section Invariants

variable {P M E I D : Type} [DecidableEq M]

theorem handleMove_game_cases (R : Rules P M) (En : Engine E P M I D)
    (config : Config) (w : World P M E) (r : Request) :
    ((handleMove R En config w r).2.game = w.game ∧
      ¬ ∃ um, DecodesTo R w.game.pos r um ∧ um ∈ R.validMoves w.game.pos) ∨
    ∃ um, DecodesTo R w.game.pos r um ∧ um ∈ R.validMoves w.game.pos ∧
      ((handleMove R En config w r).2.game = Game.after R w.game um ∨
        ∃ bm, bm ∈ R.validMoves (Game.after R w.game um).pos ∧
          En.BestMove (afterGo En config w.uciEngine (Game.after R w.game um)).2 = some bm ∧
          (handleMove R En config w r).2.game =
            Game.after R (Game.after R w.game um) bm) := by
  rcases decode_cases R w.game.pos r with ⟨hu, hs⟩ | ⟨hu, hd⟩ | ⟨hu, hs, hd⟩ | ⟨um, hd⟩
  · rw [handleMove_not_specified R En config w r hu hs]
    refine Or.inl ⟨rfl, ?_⟩
    rintro ⟨um, ⟨hu', -⟩ | ⟨-, hs', -⟩, -⟩
    · exact hu' hu
    · exact hs' hs
  · rw [handleMove_invalid_uci R En config w r hu hd]
    refine Or.inl ⟨rfl, ?_⟩
    rintro ⟨um, ⟨-, hd'⟩ | ⟨hu', -, -⟩, -⟩
    · rw [hd] at hd'; cases hd'
    · exact hu hu'
  · rw [handleMove_invalid_san R En config w r hu hs hd]
    refine Or.inl ⟨rfl, ?_⟩
    rintro ⟨um, ⟨hu', -⟩ | ⟨-, -, hd'⟩, -⟩
    · exact hu' hu
    · rw [hd] at hd'; cases hd'
  · by_cases hm : um ∈ R.validMoves w.game.pos
    · refine Or.inr ⟨um, hd, hm, ?_⟩
      cases h1 : (afterPosition En w.uciEngine (Game.after R w.game um)).1 with
      | true =>
        rw [handleMove_position_error R En config w r um hd hm h1]
        exact Or.inl rfl
      | false =>
        cases h2 : (afterGo En config w.uciEngine (Game.after R w.game um)).1 with
        | true =>
          rw [handleMove_go_error R En config w r um hd hm h1 h2]
          exact Or.inl rfl
        | false =>
          cases h3 : Game.Move R (Game.after R w.game um)
              (En.BestMove (afterGo En config w.uciEngine (Game.after R w.game um)).2) with
          | none =>
            rw [handleMove_best_move_error R En config w r um hd hm h1 h2 h3]
            exact Or.inl rfl
          | some g2 =>
            obtain ⟨bm, hb, hl, -⟩ := Game.Move_eq_some R _ _ _ h3
            rw [handleMove_ok R En config w r um bm hd hm h1 h2 hb hl]
            exact Or.inr ⟨bm, hl, hb, rfl⟩
    · rw [handleMove_illegal R En config w r um hd hm]
      refine Or.inl ⟨rfl, ?_⟩
      rintro ⟨um', hd', hm'⟩
      rw [DecodesTo_unique R w.game.pos r um' um hd' hd] at hm'
      exact hm hm'

theorem serve_LegalLine (R : Rules P M) (En : Engine E P M I D) (config : Config)
    (w : World P M E) (c : Call) (hl : LegalLine R R.startPos w.game.history w.game.pos) :
    LegalLine R R.startPos (serve R En config w c).game.history
      (serve R En config w c).game.pos := by
  cases c with
  | move r =>
    simp only [serve]
    rcases handleMove_game_cases R En config w r with ⟨hg, -⟩ | ⟨um, -, hm, hg | ⟨bm, hb, -, hg⟩⟩
    · rw [hg]; exact hl
    · rw [hg]; exact LegalLine_after R w.game um hl hm
    · rw [hg]
      exact LegalLine_after R _ bm (LegalLine_after R w.game um hl hm) hb
  | fen => exact hl
  | board => exact hl
  | uciInfo => exact hl
  | newGame => exact rfl

theorem serveAll_LegalLine (R : Rules P M) (En : Engine E P M I D) (config : Config)
    (cs : List Call) : ∀ (w : World P M E),
      LegalLine R R.startPos w.game.history w.game.pos →
      LegalLine R R.startPos (serveAll R En config w cs).game.history
        (serveAll R En config w cs).game.pos := by
  induction cs with
  | nil => intro w hl; exact hl
  | cons c cs ih =>
    intro w hl
    exact ih (serve R En config w c) (serve_LegalLine R En config w c hl)

/-- C3: in every session reached from process start by any sequence of `/move`,
`/fen`, `/show`, `/info` and `/new` calls, for any engine and any engine state left
by startup, the move history is a line of legal moves from the starting position to
the current position: each entry starts where the previous one ended, its move is
legal there, and the last one ends in the current position. -/
theorem legality_invariant (R : Rules P M) (En : Engine E P M I D) (config : Config)
    (e0 : E) (cs : List Call) :
    LegalLine R R.startPos (serveAll R En config (initWorld R e0) cs).game.history
      (serveAll R En config (initWorld R e0) cs).game.pos :=
  serveAll_LegalLine R En config cs (initWorld R e0) rfl

/-- C8 as stated fails: after an exchange in which the `position` command errored,
the history holds the client's `e2e4` alone (odd length, Black to move), and the
next `handleMove` accepts the client's `e7e5` and records it as the second move. -/
theorem turn_alternation_counterexample :
    (serveAll openingRules scriptedEngine defaultConfig
      (initWorld openingRules ⟨[true], some .g1f3⟩)
      [.move ⟨"e2e4", ""⟩]).game.history.length = 1 ∧
    (handleMove openingRules scriptedEngine defaultConfig
      (serveAll openingRules scriptedEngine defaultConfig
        (initWorld openingRules ⟨[true], some .g1f3⟩) [.move ⟨"e2e4", ""⟩])
      ⟨"e7e5", ""⟩).1.status = StatusOK ∧
    (handleMove openingRules scriptedEngine defaultConfig
      (serveAll openingRules scriptedEngine defaultConfig
        (initWorld openingRules ⟨[true], some .g1f3⟩) [.move ⟨"e2e4", ""⟩])
      ⟨"e7e5", ""⟩).2.game.history =
      [{ PrePosition := [], PostPosition := [.e2e4], Move := .e2e4 },
       { PrePosition := [.e2e4], PostPosition := [.e2e4, .e7e5], Move := .e7e5 },
       { PrePosition := [.e2e4, .e7e5], PostPosition := [.e2e4, .e7e5, .g1f3],
         Move := .g1f3 }] := by
  decide

theorem handleMove_history_step (R : Rules P M) (En : Engine E P M I D)
    (config : Config) (w : World P M E) (r : Request) :
    ((handleMove R En config w r).2.game.history = w.game.history ∧
      ¬ ∃ um, DecodesTo R w.game.pos r um ∧ um ∈ R.validMoves w.game.pos) ∨
    ∃ um, DecodesTo R w.game.pos r um ∧ um ∈ R.validMoves w.game.pos ∧
      ((handleMove R En config w r).2.game.history = w.game.history ++
          [{ PrePosition := w.game.pos, PostPosition := R.update w.game.pos um,
             Move := um }] ∨
        ∃ bm, bm ∈ R.validMoves (R.update w.game.pos um) ∧
          En.BestMove (afterGo En config w.uciEngine (Game.after R w.game um)).2 = some bm ∧
          (handleMove R En config w r).2.game.history = w.game.history ++
            [{ PrePosition := w.game.pos, PostPosition := R.update w.game.pos um,
               Move := um },
             { PrePosition := R.update w.game.pos um,
               PostPosition := R.update (R.update w.game.pos um) bm, Move := bm }]) := by
  rcases handleMove_game_cases R En config w r with
    ⟨hg, hn⟩ | ⟨um, hd, hm, hg | ⟨bm, hb, hbest, hg⟩⟩
  · exact Or.inl ⟨by rw [hg], hn⟩
  · exact Or.inr ⟨um, hd, hm, Or.inl (by rw [hg]; rfl)⟩
  · exact Or.inr ⟨um, hd, hm, Or.inr ⟨bm, hb, hbest, by rw [hg]; simp [Game.after]⟩⟩

end Invariants

/-! ## Concurrent exchanges -/

section Concurrency

variable {P M E I D : Type} [DecidableEq M]

theorem Task.run_start (R : Rules P M) (En : Engine E P M I D) (config : Config)
    (w : World P M E) (r : Request) :
    Task.run R En config 5 w (.start r) =
      ((handleMove R En config w r).2, .done (handleMove R En config w r).1) := by
  rcases decode_cases R w.game.pos r with ⟨hu, hs⟩ | ⟨hu, hd⟩ | ⟨hu, hs, hd⟩ | ⟨um, hd⟩
  · rw [handleMove_not_specified R En config w r hu hs]
    simp [Task.run, Task.step, hu, hs]
  · rw [handleMove_invalid_uci R En config w r hu hd]
    simp [Task.run, Task.step, hu, hd]
  · rw [handleMove_invalid_san R En config w r hu hs hd]
    simp [Task.run, Task.step, hu, hs, hd]
  · have hstart : Task.step R En config w (.start r) = (w, .decoded um) := by
      rcases hd with ⟨hu, hd⟩ | ⟨hu, hs, hd⟩
      · simp [Task.step, hu, hd]
      · simp [Task.step, hu, hs, hd]
    by_cases hm : um ∈ R.validMoves w.game.pos
    · have hg := Game.Move_legal R w.game um hm
      cases h1 : (afterPosition En w.uciEngine (Game.after R w.game um)).1 with
      | true =>
        rw [handleMove_position_error R En config w r um hd hm h1]
        simp only [afterPosition] at h1
        simp only [Task.run, hstart]
        simp [Task.step, hg, h1, afterPosition]
      | false =>
        cases h2 : (afterGo En config w.uciEngine (Game.after R w.game um)).1 with
        | true =>
          rw [handleMove_go_error R En config w r um hd hm h1 h2]
          simp only [afterGo, afterPosition] at h1 h2
          simp only [Task.run, hstart]
          simp [Task.step, hg, h1, h2, afterGo, afterPosition]
        | false =>
          cases h3 : Game.Move R (Game.after R w.game um)
              (En.BestMove (afterGo En config w.uciEngine (Game.after R w.game um)).2) with
          | none =>
            rw [handleMove_best_move_error R En config w r um hd hm h1 h2 h3]
            simp only [afterGo, afterPosition] at h1 h2 h3
            simp only [Task.run, hstart]
            simp [Task.step, hg, h1, h2, h3, afterGo, afterPosition]
          | some g2 =>
            obtain ⟨bm, hb, hl, -⟩ := Game.Move_eq_some R _ _ _ h3
            rw [handleMove_ok R En config w r um bm hd hm h1 h2 hb hl]
            have h4 := Game.Move_legal R (Game.after R w.game um) bm hl
            simp only [afterGo, afterPosition] at h1 h2 hb h4
            simp only [Task.run, hstart]
            simp [Task.step, hg, h1, h2, hb, h4, afterGo, afterPosition]
    · rw [handleMove_illegal R En config w r um hd hm]
      simp only [Task.run, hstart]
      simp [Task.step, Game.Move_illegal R w.game um hm]

theorem runSchedule_first (R : Rules P M) (En : Engine E P M I D) (config : Config)
    (n : Nat) : ∀ (s : Pair P M E I D),
    runSchedule R En config s (List.replicate n Turn.first) =
      { world := (Task.run R En config n s.world s.first).1
        first := (Task.run R En config n s.world s.first).2
        second := s.second } := by
  induction n with
  | zero => intro s; rfl
  | succ n ih =>
    intro s
    have h := ih (Pair.step R En config s .first)
    simp only [runSchedule] at h
    simp only [runSchedule, List.replicate_succ, List.foldl_cons, h]
    rfl

theorem runSchedule_second (R : Rules P M) (En : Engine E P M I D) (config : Config)
    (n : Nat) : ∀ (s : Pair P M E I D),
    runSchedule R En config s (List.replicate n Turn.second) =
      { world := (Task.run R En config n s.world s.second).1
        first := s.first
        second := (Task.run R En config n s.world s.second).2 } := by
  induction n with
  | zero => intro s; rfl
  | succ n ih =>
    intro s
    have h := ih (Pair.step R En config s .second)
    simp only [runSchedule] at h
    simp only [runSchedule, List.replicate_succ, List.foldl_cons, h]
    rfl

theorem runSchedule_append (R : Rules P M) (En : Engine E P M I D) (config : Config)
    (s : Pair P M E I D) (a b : List Turn) :
    runSchedule R En config s (a ++ b) =
      runSchedule R En config (runSchedule R En config s a) b := by
  simp [runSchedule, List.foldl_append]

theorem Task.step_game (R : Rules P M) (En : Engine E P M I D) (config : Config)
    (w : World P M E) (t : Task M I D) :
    (Task.step R En config w t).1.game = w.game ∨
    ∃ m, m ∈ R.validMoves w.game.pos ∧
      (Task.step R En config w t).1.game = Game.after R w.game m := by
  cases t with
  | start r =>
    left
    simp only [Task.step]
    split
    · split <;> rfl
    · split
      · split <;> rfl
      · rfl
  | decoded um =>
    by_cases hm : um ∈ R.validMoves w.game.pos
    · right
      exact ⟨um, hm, by simp [Task.step, Game.Move_legal R w.game um hm]⟩
    · left
      simp [Task.step, Game.Move_illegal R w.game um hm]
  | applied =>
    left
    simp only [Task.step]
    split <;> rfl
  | positioned =>
    left
    simp only [Task.step]
    split <;> rfl
  | searched =>
    cases h3 : Game.Move R w.game (En.BestMove w.uciEngine) with
    | none =>
      left
      cases hb : En.BestMove w.uciEngine with
      | none => simp [Task.step, hb, Game.Move]
      | some bm =>
        rw [hb] at h3
        simp [Task.step, hb, h3]
    | some g2 =>
      obtain ⟨bm, hb, hl, hg⟩ := Game.Move_eq_some R _ _ _ h3
      right
      refine ⟨bm, hl, ?_⟩
      rw [hb] at h3
      simp [Task.step, hb, h3, hg]
  | done resp => left; rfl

theorem Task.step_LegalLine (R : Rules P M) (En : Engine E P M I D) (config : Config)
    (w : World P M E) (t : Task M I D)
    (hl : LegalLine R R.startPos w.game.history w.game.pos) :
    LegalLine R R.startPos (Task.step R En config w t).1.game.history
      (Task.step R En config w t).1.game.pos := by
  rcases Task.step_game R En config w t with hg | ⟨m, hm, hg⟩
  · rw [hg]; exact hl
  · rw [hg]; exact LegalLine_after R w.game m hl hm

theorem runSchedule_LegalLine (R : Rules P M) (En : Engine E P M I D) (config : Config)
    (sched : List Turn) : ∀ (s : Pair P M E I D),
    LegalLine R R.startPos s.world.game.history s.world.game.pos →
    LegalLine R R.startPos (runSchedule R En config s sched).world.game.history
      (runSchedule R En config s sched).world.game.pos := by
  induction sched with
  | nil => intro s hl; exact hl
  | cons t ts ih =>
    intro s hl
    have h := ih (Pair.step R En config s t) (by
      cases t with
      | first => exact Task.step_LegalLine R En config s.world s.first hl
      | second => exact Task.step_LegalLine R En config s.world s.second hl)
    simpa [runSchedule] using h

/-- C10 as stated fails: with `e2e4` and `c7c5` submitted together at the starting
position, the schedule that lets the first exchange decode and apply its move, then
runs the whole second exchange, then finishes the first, applies `c7c5` to the
position right after `e2e4`, before any opponent move: the session ends at
`[e2e4, c7c5]`, where either serial order ends at `[e2e4, e7e5]`. -/
theorem concurrent_exchanges_counterexample :
    (runSchedule openingRules scriptedEngine defaultConfig
      ⟨initWorld openingRules ⟨[], some .e7e5⟩, .start ⟨"e2e4", ""⟩, .start ⟨"c7c5", ""⟩⟩
      [.first, .first, .second, .second, .second, .second, .second,
       .first, .first, .first]).world.game.history =
      [{ PrePosition := [], PostPosition := [.e2e4], Move := .e2e4 },
       { PrePosition := [.e2e4], PostPosition := [.e2e4, .c7c5], Move := .c7c5 }] ∧
    (handleMove openingRules scriptedEngine defaultConfig
      (handleMove openingRules scriptedEngine defaultConfig
        (initWorld openingRules ⟨[], some .e7e5⟩) ⟨"e2e4", ""⟩).2
      ⟨"c7c5", ""⟩).2.game.pos = [.e2e4, .e7e5] ∧
    (handleMove openingRules scriptedEngine defaultConfig
      (handleMove openingRules scriptedEngine defaultConfig
        (initWorld openingRules ⟨[], some .e7e5⟩) ⟨"c7c5", ""⟩).2
      ⟨"e2e4", ""⟩).2.game.pos = [.e2e4, .e7e5] := by
  decide

/-- C10, amended: `main.go` holds no lock, so two concurrent exchanges are serialized
only under a schedule that does not interleave them.  From every reachable session,
when the five steps of one exchange all run before the five steps of the other, the
session and both answers are those of the two `handleMove` calls made one after the
other in that order, so the later exchange decodes and applies its client move
against the position left by the complete earlier one; and under every schedule,
interleaved or not, the move history remains a line of legal moves from the starting
position to the current position. -/
theorem concurrent_exchanges (R : Rules P M) (En : Engine E P M I D) (config : Config)
    (e0 : E) (cs : List Call) (a b : Request) (sched : List Turn) :
    runSchedule R En config
        ⟨serveAll R En config (initWorld R e0) cs, .start a, .start b⟩
        (List.replicate 5 Turn.first ++ List.replicate 5 Turn.second) =
      { world := (handleMove R En config
          (handleMove R En config (serveAll R En config (initWorld R e0) cs) a).2 b).2
        first := .done (handleMove R En config (serveAll R En config (initWorld R e0) cs) a).1
        second := .done (handleMove R En config
          (handleMove R En config (serveAll R En config (initWorld R e0) cs) a).2 b).1 } ∧
    runSchedule R En config
        ⟨serveAll R En config (initWorld R e0) cs, .start a, .start b⟩
        (List.replicate 5 Turn.second ++ List.replicate 5 Turn.first) =
      { world := (handleMove R En config
          (handleMove R En config (serveAll R En config (initWorld R e0) cs) b).2 a).2
        first := .done (handleMove R En config
          (handleMove R En config (serveAll R En config (initWorld R e0) cs) b).2 a).1
        second := .done
          (handleMove R En config (serveAll R En config (initWorld R e0) cs) b).1 } ∧
    LegalLine R R.startPos
      (runSchedule R En config
        ⟨serveAll R En config (initWorld R e0) cs, .start a, .start b⟩
        sched).world.game.history
      (runSchedule R En config
        ⟨serveAll R En config (initWorld R e0) cs, .start a, .start b⟩
        sched).world.game.pos := by
  refine ⟨?_, ?_, ?_⟩
  · rw [runSchedule_append, runSchedule_first, runSchedule_second]
    simp only [Task.run_start]
  · rw [runSchedule_append, runSchedule_second, runSchedule_first]
    simp only [Task.run_start]
  · exact runSchedule_LegalLine R En config sched _
      (serveAll_LegalLine R En config cs (initWorld R e0) rfl)

end Concurrency

/-! ## Turn alternation -/

section Alternation

variable {P M E I D : Type} [DecidableEq M]

theorem handleMove_playedBy (R : Rules P M) (En : Engine E P M I D) (config : Config)
    (w : World P M E) (r : Request) :
    (handleMove R En config w r).2.game.history.map (fun e => e.Move) =
      w.game.history.map (fun e => e.Move) ++ (playedBy R En config w r).map Prod.snd ∧
    (playedBy R En config w r = [] ∨
      (∃ um, playedBy R En config w r = [(Author.client, um)]) ∨
      ∃ um bm, playedBy R En config w r = [(Author.client, um), (Author.opponent, bm)]) := by
  rcases decode_cases R w.game.pos r with ⟨hu, hs⟩ | ⟨hu, hd⟩ | ⟨hu, hs, hd⟩ | ⟨um, hd⟩
  · rw [handleMove_not_specified R En config w r hu hs]
    simp [playedBy, hu, hs]
  · rw [handleMove_invalid_uci R En config w r hu hd]
    simp [playedBy, hu, hd]
  · rw [handleMove_invalid_san R En config w r hu hs hd]
    simp [playedBy, hu, hs, hd]
  · have hdec : (if r.uci = "" then if r.san = "" then none else R.decodeSAN w.game.pos r.san
        else R.decodeUCI w.game.pos r.uci) = some um := by
      rcases hd with ⟨hu, hd⟩ | ⟨hu, hs, hd⟩
      · simp [hu, hd]
      · simp [hu, hs, hd]
    by_cases hm : um ∈ R.validMoves w.game.pos
    · have hg := Game.Move_legal R w.game um hm
      cases h1 : (afterPosition En w.uciEngine (Game.after R w.game um)).1 with
      | true =>
        have hp : playedBy R En config w r = [(Author.client, um)] := by
          simp [playedBy, hdec, hg, h1]
        rw [handleMove_position_error R En config w r um hd hm h1, hp]
        simp [Game.after]
      | false =>
        cases h2 : (afterGo En config w.uciEngine (Game.after R w.game um)).1 with
        | true =>
          have hp : playedBy R En config w r = [(Author.client, um)] := by
            simp [playedBy, hdec, hg, h1, h2]
          rw [handleMove_go_error R En config w r um hd hm h1 h2, hp]
          simp [Game.after]
        | false =>
          cases h3 : Game.Move R (Game.after R w.game um)
              (En.BestMove (afterGo En config w.uciEngine (Game.after R w.game um)).2) with
          | none =>
            have hp : playedBy R En config w r = [(Author.client, um)] := by
              cases hb : En.BestMove
                  (afterGo En config w.uciEngine (Game.after R w.game um)).2 with
              | none => simp [playedBy, hdec, hg, h1, h2, hb]
              | some bm =>
                have hl : bm ∉ R.validMoves (Game.after R w.game um).pos := by
                  intro hl
                  rw [hb, Game.Move_legal R _ bm hl] at h3
                  cases h3
                simp [playedBy, hdec, hg, h1, h2, hb, hl]
            rw [handleMove_best_move_error R En config w r um hd hm h1 h2 h3, hp]
            simp [Game.after]
          | some g2 =>
            obtain ⟨bm, hb, hl, -⟩ := Game.Move_eq_some R _ _ _ h3
            have hp : playedBy R En config w r =
                [(Author.client, um), (Author.opponent, bm)] := by
              simp [playedBy, hdec, hg, h1, h2, hb, hl]
            rw [handleMove_ok R En config w r um bm hd hm h1 h2 hb hl, hp]
            simp [Game.after]
    · have hp : playedBy R En config w r = [] := by
        simp [playedBy, hdec, Game.Move_illegal R w.game um hm]
      rw [handleMove_illegal R En config w r um hd hm, hp]
      simp

theorem Ledger.record_invariant (R : Rules P M) (En : Engine E P M I D) (config : Config)
    (w : World P M E) (l : Ledger M) (c : Call)
    (h1 : l.played.map Prod.snd = w.game.history.map (fun e => e.Move))
    (h2 : ClientLed l.played) (h3 : Even (w.game.history.length + l.faults)) :
    (Ledger.record R En config w l c).played.map Prod.snd =
      (serve R En config w c).game.history.map (fun e => e.Move) ∧
    ClientLed (Ledger.record R En config w l c).played ∧
    Even ((serve R En config w c).game.history.length +
      (Ledger.record R En config w l c).faults) := by
  cases c with
  | move r =>
    obtain ⟨hmap, hshape⟩ := handleMove_playedBy R En config w r
    have hlen := congrArg List.length hmap
    simp only [List.length_map, List.length_append] at hlen
    simp only [serve, Ledger.record]
    refine ⟨by rw [List.map_append, h1, hmap], ?_, ?_⟩
    · rcases hshape with h | ⟨um, h⟩ | ⟨um, bm, h⟩
      · rw [h]; simpa using h2
      · rw [h]; exact ClientLed_append _ _ h2 (.single um [] .nil)
      · rw [h]; exact ClientLed_append _ _ h2 (.exchange um bm [] .nil)
    · rw [hlen]
      rw [Nat.even_iff] at h3 ⊢
      rcases hshape with h | ⟨um, h⟩ | ⟨um, bm, h⟩ <;> rw [h] <;> simp <;> omega
  | fen => exact ⟨h1, h2, h3⟩
  | board => exact ⟨h1, h2, h3⟩
  | uciInfo => exact ⟨h1, h2, h3⟩
  | newGame =>
    refine ⟨rfl, .nil, ?_⟩
    simp [serve, handleNewGame, NewGame, Ledger.record]

theorem Ledger.recordAll_invariant (R : Rules P M) (En : Engine E P M I D) (config : Config)
    (cs : List Call) : ∀ (w : World P M E) (l : Ledger M),
    l.played.map Prod.snd = w.game.history.map (fun e => e.Move) →
    ClientLed l.played → Even (w.game.history.length + l.faults) →
    (Ledger.recordAll R En config w l cs).played.map Prod.snd =
      (serveAll R En config w cs).game.history.map (fun e => e.Move) ∧
    ClientLed (Ledger.recordAll R En config w l cs).played ∧
    Even ((serveAll R En config w cs).game.history.length +
      (Ledger.recordAll R En config w l cs).faults) := by
  induction cs with
  | nil => intro w l h1 h2 h3; exact ⟨h1, h2, h3⟩
  | cons c cs ih =>
    intro w l h1 h2 h3
    obtain ⟨k1, k2, k3⟩ := Ledger.record_invariant R En config w l c h1 h2 h3
    exact ih (serve R En config w c) (Ledger.record R En config w l c) k1 k2 k3

/-- C8, amended: in every session reached from process start by any sequence of
handler calls and engine replies, with the ledger of who played each move since the
last new game: the ledger lists exactly the moves of the history; every opponent
move in it stands immediately after a client move; the history length has the
parity of the number of exchanges since the last new game that ended in an opponent
fault, so when there was none the length is even and it is the first mover's turn;
and `handleMove` accepts a client move there (the history changes) exactly when the
request decodes to a move that is legal in the current position, which after an
opponent fault is a move of the other side. -/
theorem turn_alternation (R : Rules P M) (En : Engine E P M I D) (config : Config)
    (e0 : E) (cs : List Call) (r : Request) :
    (Ledger.recordAll R En config (initWorld R e0) ⟨[], 0⟩ cs).played.map Prod.snd =
      (serveAll R En config (initWorld R e0) cs).game.history.map (fun e => e.Move) ∧
    (∀ (l1 : List (Author × M)) (m : M) (l2 : List (Author × M)),
      (Ledger.recordAll R En config (initWorld R e0) ⟨[], 0⟩ cs).played =
        l1 ++ (Author.opponent, m) :: l2 →
      ∃ l0 um, l1 = l0 ++ [(Author.client, um)]) ∧
    Even ((serveAll R En config (initWorld R e0) cs).game.history.length +
      (Ledger.recordAll R En config (initWorld R e0) ⟨[], 0⟩ cs).faults) ∧
    ((Ledger.recordAll R En config (initWorld R e0) ⟨[], 0⟩ cs).faults = 0 →
      Even (serveAll R En config (initWorld R e0) cs).game.history.length) ∧
    ((handleMove R En config (serveAll R En config (initWorld R e0) cs) r).2.game.history ≠
        (serveAll R En config (initWorld R e0) cs).game.history ↔
      ∃ um, DecodesTo R (serveAll R En config (initWorld R e0) cs).game.pos r um ∧
        um ∈ R.validMoves (serveAll R En config (initWorld R e0) cs).game.pos) := by
  obtain ⟨k1, k2, k3⟩ := Ledger.recordAll_invariant R En config cs (initWorld R e0) ⟨[], 0⟩
    rfl .nil (by simp [initWorld, NewGame])
  refine ⟨k1, ClientLed_opponent _ k2, k3, ?_, ?_⟩
  · intro h0
    rw [h0] at k3
    simpa using k3
  · rcases handleMove_history_step R En config (serveAll R En config (initWorld R e0) cs) r
      with ⟨hh, hn⟩ | ⟨um, hd, hm, hh | ⟨bm, -, -, hh⟩⟩
    · exact ⟨fun hne => absurd hh hne, fun hex => absurd hex hn⟩
    · refine ⟨fun _ => ⟨um, hd, hm⟩, fun _ heq => ?_⟩
      rw [hh] at heq
      have hlen := congrArg List.length heq
      simp at hlen
    · refine ⟨fun _ => ⟨um, hd, hm⟩, fun _ heq => ?_⟩
      rw [hh] at heq
      have hlen := congrArg List.length heq
      simp at hlen

/-- C8 amended, after one complete exchange `e2e4 e7e5` from process start: no
opponent fault has happened and the history length is even. -/
theorem turn_alternation_witness :
    (Ledger.recordAll openingRules scriptedEngine defaultConfig
      (initWorld openingRules ⟨[], some .e7e5⟩) ⟨[], 0⟩ [.move ⟨"e2e4", ""⟩]).faults = 0 ∧
    Even (serveAll openingRules scriptedEngine defaultConfig
      (initWorld openingRules ⟨[], some .e7e5⟩) [.move ⟨"e2e4", ""⟩]).game.history.length :=
  ⟨by decide,
    (turn_alternation openingRules scriptedEngine defaultConfig
      (⟨[], some .e7e5⟩ : Script) [.move ⟨"e2e4", ""⟩] ⟨"", ""⟩).2.2.2.1 (by decide)⟩

end Alternation

end MicroUCI
